import Mathlib

/-!
# Verification of the docinventory cache-and-index core

Shallow embedding of `docinventory.py`: the persistent store (two shelves:
one per-URL inventory shelf keyed by `DataStore.local_path`, and the global
index shelf `gindex` keyed by URL), the `DocInventory` orchestrator
(`is_cached` / `download` / `add_url` / `global_index` / `lookup`), and the
inventory parser entry point `read_inventory`.

Modelling conventions:
* Python dicts and shelves are association lists (`List (String × α)`) with
  unique-key update (`alSet`) mirroring dict assignment and
  `setdefault(k, []).append(v)` (`alAppend`).
* A fetched document is its list of logical lines, already newline-stripped
  (Python reads lines and `rstrip`s them); the version-2 body is modelled
  post-decompression, as the spec describes it as the same record shape.
* Exceptions are an explicit error type threaded as
  `DocInventory × Except DocError α`: every operation returns the state at
  the point the exception escapes, so atomicity claims are substantive.
  The spec's error kinds name the exception raised at the corresponding
  source location (`urllib2` errors ↦ `fetchError`; the unbound-`invdata`
  failure of `read_inventory` on an unrecognized first line ↦
  `unsupportedFormat`; the `KeyError` of `get_inventory` on a missing shelf
  entry ↦ `corruptIndex`; the `KeyError` of `local_path` on a scheme
  without a default port ↦ `pathError`).
* Directory creation (`mkdirp`) touches no shelf content and is not part of
  the store state.
-/

set_option maxHeartbeats 1000000
set_option synthInstance.maxSize 1024

namespace DocInv

/-- Error kinds of the subsystem (§7 of the spec), naming the Python
exceptions raised at the corresponding source locations. -/
inductive DocError where
  | fetchError
  | unsupportedFormat
  | malformedInventory
  | corruptIndex
  | pathError
  deriving DecidableEq, Repr

/-- Association-list read: Python `dict.get` / shelf read. -/
def alGet {α : Type} (k : String) : List (String × α) → Option α
  | [] => none
  | kv :: rest => if kv.1 = k then some kv.2 else alGet k rest

/-- Association-list write: Python `dict[k] = v` / shelf write
(replace the existing binding, else append a new one). -/
def alSet {α : Type} (k : String) (v : α) : List (String × α) → List (String × α)
  | [] => [(k, v)]
  | kv :: rest => if kv.1 = k then (k, v) :: rest else kv :: alSet k v rest

/-- `gi.setdefault(k, []).append(d)` of `DocInventory.global_index`. -/
def alAppend {α : Type} (k : String) (d : α) :
    List (String × List α) → List (String × List α)
  | [] => [(k, [d])]
  | kv :: rest => if kv.1 = k then (kv.1, kv.2 ++ [d]) :: rest else kv :: alAppend k d rest

/-- A parsed record value: `(project, version, location, display)`. -/
abbrev Record := String × String × String × String

/-- One doctype's mapping from symbol name to record. -/
abbrev DoctypeMap := List (String × Record)

/-- Parsed inventory: doctype tag ↦ name ↦ record (`invdata` in the source). -/
abbrev Invdata := List (String × DoctypeMap)

/-- `Index = namedtuple('Index', ('url', 'local_path', 'names'))`. -/
structure Index where
  url : String
  localPath : String
  names : List String
  deriving DecidableEq, Repr

/-- `Document = namedtuple('Document', ('url', 'local_path'))`. -/
structure Document where
  url : String
  localPath : String
  deriving DecidableEq, Repr

/-- `Topic = namedtuple('Topic', ('type', 'project', 'version', 'location', 'display'))`. -/
structure Topic where
  type : String
  project : String
  version : String
  location : String
  display : String
  deriving DecidableEq, Repr

/-- Content of one per-URL shelf after `download` wrote it:
`linv['inventory']`, `linv['url']`, `linv['path']`. -/
structure LocalShelf where
  inventory : Invdata
  url : String
  path : String
  deriving DecidableEq, Repr

/-- The persistent store: the per-URL inventory shelves, keyed by the
`local_path` string, and the `gindex` shelf, keyed by URL. -/
structure Store where
  localInv : List (String × LocalShelf)
  ginv : List (String × Index)
  deriving DecidableEq, Repr

/-- `DataStore`: carries the base path from which shelf paths derive. -/
structure DataStore where
  basePath : String
  deriving DecidableEq, Repr

/-- Split a character list at the first occurrence of `sep` (as a
contiguous subsequence): `some (before, after)`, or `none` if absent. -/
def splitFirst (sep : List Char) : List Char → Option (List Char × List Char)
  | [] => none
  | c :: rest =>
    if sep.isPrefixOf (c :: rest) then some ([], (c :: rest).drop sep.length)
    else
      match splitFirst sep rest with
      | none => none
      | some (a, b) => some (c :: a, b)

/-- Python `str.split(sep)` for a one-character separator: every part is
kept, including empty ones (`''.split('/') == ['']`). -/
def splitChar (sep : Char) : List Char → List (List Char)
  | [] => [[]]
  | c :: rest =>
    if c = sep then [] :: splitChar sep rest
    else
      match splitChar sep rest with
      | [] => [[c]]
      | p :: ps => (c :: p) :: ps

/-- Python `str.split(sep)` on strings, one-character separator. -/
def pySplit (sep : Char) (s : String) : List String :=
  (splitChar sep s.data).map String.mk

/-- `posixpath.join` / `os.path.join` on two components (POSIX semantics). -/
def pyJoin2 (a b : String) : String :=
  if b.data.head? = some '/' then b
  else if a.isEmpty || a.data.getLast? = some '/' then a ++ b
  else a ++ "/" ++ b

/-- `self.cache_path = os.path.join(self.base_path, 'cache')`. -/
def cache_path (ds : DataStore) : String :=
  pyJoin2 ds.basePath "cache"

/-- `urlparse.urlparse`, restricted to what `local_path` reads of its
result: `(scheme, netloc, path)`. The netloc runs to the first `/`; query
and fragment are not part of the path. Modelled for URLs of the
`scheme://...` shape the system handles; a URL without a `://` separator
is mapped to the failing case (as Python maps it to an empty or unknown
scheme, on which `local_path`'s port-map lookup then raises `KeyError`). -/
def urlparse (url : String) : Option (String × String × String) :=
  match splitFirst [':', '/', '/'] url.data with
  | none => none
  | some (schemeCs, restCs) =>
    let restCs := restCs.takeWhile (fun c => c ≠ '#')
    let restCs := restCs.takeWhile (fun c => c ≠ '?')
    let netloc := restCs.takeWhile (fun c => c ≠ '/')
    let path := restCs.dropWhile (fun c => c ≠ '/')
    some (String.mk schemeCs, String.mk netloc, String.mk path)

/-- `DataStore._scheme_port_map` lookup (`KeyError` ↦ `none`). -/
def scheme_port_map (s : String) : Option String :=
  if s = "http" then some "80" else if s = "https" then some "443" else none

/-- `result.port or self._scheme_port_map[result.scheme]`: an explicit,
non-empty `host:port` netloc supplies the port, else the scheme's default.
The port is kept as the digit string `str(port)` is rendered from. -/
def net_port (scheme netloc : String) : Option String :=
  match splitChar ':' netloc.data with
  | [_] => scheme_port_map scheme
  | _ :: p :: _ => if p.isEmpty then scheme_port_map scheme else some (String.mk p)
  | [] => none

/-- `DataStore.local_path`: `os.path.join(cache_path, scheme, netloc,
str(port), *path.split('/'))`. `none` models the `KeyError` on a scheme
with neither an explicit nor a default port. -/
def local_path (ds : DataStore) (url : String) : Option String :=
  match urlparse url with
  | none => none
  | some (scheme, netloc, path) =>
    match net_port scheme netloc with
    | none => none
    | some port =>
      some (List.foldl pyJoin2 (cache_path ds) ([scheme, netloc, port] ++ pySplit '/' path))

/-- Whitespace split of a record line, dropping empty parts, as with
Python `str.split(None)` (blanks modelled as spaces). -/
def splitWs (s : String) : List String :=
  (pySplit ' ' s).filter (fun t => ¬t.isEmpty)

/-- Concatenate with single spaces (the display label's parts rejoined). -/
def joinSpace : List String → String
  | [] => ""
  | [s] => s
  | s :: rest => s ++ " " ++ joinSpace rest

/-- Modelled from the spec: resolution of one parsed record
(`sphinx.ext.intersphinx.read_inventory_v1/v2` record handling, which the
source imports but which is not among this repository's sources, §4.2/§6).
A trailing placeholder token `$` in the raw location is replaced by the
symbol name; the location is resolved against the base URL with path-join
semantics; an absent display or the literal `-` marker means "no display
override; use `name`". The spec does not say how the project and version
header values are carried, and no claim constrains them; they are modelled
as empty strings. -/
def mkRecord (base nm location : String) (dispRest : List String) : Record :=
  let location :=
    if location.data.getLast? = some '$' then String.mk location.data.dropLast ++ nm
    else location
  let location := pyJoin2 base location
  let disp := if dispRest.isEmpty then "-" else joinSpace dispRest
  let disp := if disp = "-" then nm else disp
  ("", "", location, disp)

/-- `invdata.setdefault(doctype, {})[name] = record`
(last write wins per doctype+name). -/
def invInsert (doctype nm : String) (rec : Record) (inv : Invdata) : Invdata :=
  match alGet doctype inv with
  | some dct => alSet doctype (alSet nm rec dct) inv
  | none => inv ++ [(doctype, [(nm, rec)])]

/-- Modelled from the spec: the record-body parser of
`sphinx.ext.intersphinx.read_inventory_v1/v2` (not among this repository's
sources). Each non-empty line is whitespace-delimited
`name doctype priority location [display]`; the priority is ignored; a line
that cannot be decoded fails with `malformedInventory` (§4.2). -/
def parse_body_aux (base : String) (lines : List String) (acc : Invdata) :
    Except DocError Invdata :=
  match lines with
  | [] => .ok acc
  | line :: rest =>
    match splitWs line with
    | [] => parse_body_aux base rest acc
    | nm :: doctype :: _prio :: location :: dispRest =>
      parse_body_aux base rest (invInsert doctype nm (mkRecord base nm location dispRest) acc)
    | _ => .error .malformedInventory

/-- Modelled from the spec: record-body parsing (see `parse_body_aux`). -/
def parse_body (base : String) (lines : List String) : Except DocError Invdata :=
  parse_body_aux base lines []

/-- `fp.readline()` on the document: its first line, or the empty string
at end of file. -/
def firstLine (doc : List String) : String :=
  match doc with
  | [] => ""
  | l :: _ => l

/-- `read_inventory(fp, url)`: dispatch on the document's first line (the
unbound-`invdata` failure on an unrecognized marker is the
`unsupportedFormat` kind). -/
def read_inventory (doc : List String) (url : String) : Except DocError Invdata :=
  if firstLine doc = "# Sphinx inventory version 1" then parse_body url doc.tail
  else if firstLine doc = "# Sphinx inventory version 2" then parse_body url doc.tail
  else .error .unsupportedFormat

/-- The fetch collaborator: URL ↦ document lines, or a transport failure. -/
abbrev Fetch := String → Except DocError (List String)

/-- The orchestrator's state: its `DataStore`, the persistent store
contents, the per-instance `_inventory_cache` (path ↦ invdata) and the
per-instance `_global_index` memo (`None` initially). -/
structure DocInventory where
  ds : DataStore
  store : Store
  invCache : List (String × Invdata)
  gidxCache : Option (List (String × List Document))
  deriving DecidableEq, Repr

/-- A freshly constructed `DocInventory` over an empty store. -/
def DocInventory.init (ds : DataStore) : DocInventory :=
  ⟨ds, ⟨[], []⟩, [], none⟩

/-- `DocInventory.is_cached`: `os.path.exists(self.ds.local_path(url))`,
i.e. whether the per-URL shelf exists at the key `local_path(url)`
(`none` models the `local_path` failure). -/
def is_cached (d : DocInventory) (url : String) : Option Bool :=
  (local_path d.ds url).map fun p => (alGet p d.store.localInv).isSome

/-- `DocInventory.download`: compute the shelf path, fetch, parse, and only
then write the per-URL shelf (`inventory`, `url`, `path`). The returned
state is the state at the point the operation finishes or the exception
escapes; no store write precedes the fetch (`mkdirp` only creates
directories). -/
def download (fetch : Fetch) (d : DocInventory) (url : String) :
    DocInventory × Except DocError (String × Invdata) :=
  match local_path d.ds url with
  | none => (d, .error .pathError)
  | some path =>
    match fetch url with
    | .error e => (d, .error e)
    | .ok doc =>
      match read_inventory doc url with
      | .error e => (d, .error e)
      | .ok inv =>
        ({ d with store := { d.store with
            localInv := alSet path ⟨inv, url, path⟩ d.store.localInv } },
         .ok (path, inv))

/-- `DocInventory.inventory_names` before the `set` coercion: all symbol
names of all doctype maps, in iteration order. -/
def allNames (inv : Invdata) : List String :=
  inv.foldl (fun acc q => acc ++ q.2.map Prod.fst) []

/-- `DocInventory.inventory_names`: the generator over all doctype maps,
coerced by `@return_as(set)` into a set, modelled as a deduplicated list. -/
def inventory_names (inv : Invdata) : List String :=
  (allNames inv).dedup

/-- `DocInventory.add_url`: if not cached, download and then write the
`gindex` entry `Index(url, path, names)` under the raw URL. -/
def add_url (fetch : Fetch) (d : DocInventory) (url : String) :
    DocInventory × Except DocError Unit :=
  match is_cached d url with
  | none => (d, .error .pathError)
  | some true => (d, .ok ())
  | some false =>
    match download fetch d url with
    | (d1, .error e) => (d1, .error e)
    | (d1, .ok (path, inv)) =>
      ({ d1 with store := { d1.store with
          ginv := alSet url ⟨url, path, inventory_names inv⟩ d1.store.ginv } },
       .ok ())

/-- `DocInventory.get_inventory`: read `linv['inventory']` from the shelf
at `local_path(url)`; a missing entry is the `KeyError` the spec calls
`CorruptIndex`. Reads only the `DataStore` and the persistent store. -/
def get_inventory (ds : DataStore) (s : Store) (url : String) :
    Except DocError Invdata :=
  match local_path ds url with
  | none => .error .pathError
  | some p =>
    match alGet p s.localInv with
    | some sh => .ok sh.inventory
    | none => .error .corruptIndex

/-- `DocInventory.cached_inventory`: consult `_inventory_cache[path]`,
else read the store and memoize. -/
def cached_inventory (d : DocInventory) (path url : String) :
    DocInventory × Except DocError Invdata :=
  match alGet path d.invCache with
  | some inv => (d, .ok inv)
  | none =>
    match get_inventory d.ds d.store url with
    | .error e => (d, .error e)
    | .ok inv => ({ d with invCache := alSet path inv d.invCache }, .ok inv)

/-- The global-index computation of `DocInventory.global_index`: for every
`gindex` entry, for every name in its `names`, append
`Document(index.url, index.local_path)` to that name's bucket. -/
def compute_global_index (s : Store) : List (String × List Document) :=
  s.ginv.foldl
    (fun gi kidx =>
      kidx.2.names.foldl (fun g nm => alAppend nm ⟨kidx.2.url, kidx.2.localPath⟩ g) gi)
    []

/-- `DocInventory.global_index`: return the memoized `_global_index` when
it is set and truthy (a non-empty dict); otherwise recompute from the store
and memoize. -/
def global_index (d : DocInventory) :
    List (String × List Document) × DocInventory :=
  match d.gidxCache with
  | some m =>
    if m.isEmpty then
      let g := compute_global_index d.store
      (g, { d with gidxCache := some g })
    else (m, d)
  | none =>
    let g := compute_global_index d.store
    (g, { d with gidxCache := some g })

/-- The per-inventory yield of `DocInventory.lookup`: one `Topic` per
doctype map containing `name`, in iteration order (`Topic(doctype, *match)`;
the matched record is a non-empty tuple, hence always truthy). -/
def topicsFor (nm : String) : Invdata → List Topic
  | [] => []
  | q :: rest =>
    match alGet nm q.2 with
    | some r => ⟨q.1, r.1, r.2.1, r.2.2.1, r.2.2.2⟩ :: topicsFor nm rest
    | none => topicsFor nm rest

/-- The candidate loop of `DocInventory.lookup`, with the exception-time
state returned on failure. The generator is modelled as the eagerly
collected finite sequence it yields when consumed. -/
def lookupGo (nm : String) : List Document → DocInventory →
    DocInventory × Except DocError (List Topic)
  | [], d => (d, .ok [])
  | doc :: rest, d =>
    match cached_inventory d doc.localPath doc.url with
    | (d1, .error e) => (d1, .error e)
    | (d1, .ok inv) =>
      match lookupGo nm rest d1 with
      | (d2, .error e) => (d2, .error e)
      | (d2, .ok ts) => (d2, .ok (topicsFor nm inv ++ ts))

/-- `DocInventory.lookup`: read the global index entry for `name`
(absent ⇒ empty), then yield topics per candidate document. -/
def lookup (d : DocInventory) (nm : String) :
    DocInventory × Except DocError (List Topic) :=
  let gd := global_index d
  lookupGo nm ((alGet nm gd.1).getD []) gd.2

/-- Follows the spec's words (§4.4): `lookup` as a fresh computation over
the current store contents, with no per-instance caches consulted. Used to
compare the implementation's `lookup` against the spec. -/
def freshLookupGo (ds : DataStore) (s : Store) (nm : String) :
    List Document → Except DocError (List Topic)
  | [] => .ok []
  | doc :: rest =>
    match get_inventory ds s doc.url with
    | .error e => .error e
    | .ok inv =>
      match freshLookupGo ds s nm rest with
      | .error e => .error e
      | .ok ts => .ok (topicsFor nm inv ++ ts)

/-- Follows the spec's words (§4.4): the fresh-computation `lookup`. -/
def freshLookup (ds : DataStore) (s : Store) (nm : String) :
    Except DocError (List Topic) :=
  freshLookupGo ds s nm ((alGet nm (compute_global_index s)).getD [])

/-! ## Concrete fixtures used by witnesses and counterexamples -/

/-- Fixture: a fetch collaborator serving one version-1 document. -/
def wFetch : Fetch := fun _ =>
  .ok ["# Sphinx inventory version 1", "alpha py:function 1 alpha.html -"]

/-- Fixture: a fresh instance over an empty store. -/
def wD0 : DocInventory := DocInventory.init ⟨"/base"⟩

/-- Fixture: the state after one successful `add_url`. -/
def wD1 : DocInventory := (add_url wFetch wD0 "http://x/objects.inv").1

/-- Fixture: a fetch collaborator failing with a transport error. -/
def wFailFetch : Fetch := fun _ => .error .fetchError

/-- Fixture: a fetch collaborator serving an unmarked document. -/
def wBogusFetch : Fetch := fun _ => .ok ["bogus first line"]

/-- Fixture: the round-trip fetch collaborator of C9, serving the crafted
version-1 document with the single record
`("foo", "py:function", 1, "api.html#foo", "-")`. -/
def rtFetch : Fetch := fun _ =>
  .ok ["# Sphinx inventory version 1", "foo py:function 1 api.html#foo -"]

/-- Fixture: the state after registering the C9 document under the base
URL `http://x/`. -/
def rtState : DocInventory := (add_url rtFetch (DocInventory.init ⟨"/base"⟩) "http://x/").1

/-- Fixture: a fetch collaborator for the URL-key experiments. -/
def slashFetch : Fetch := fun _ =>
  .ok ["# Sphinx inventory version 1", "n py:function 1 n.html -"]

/-- Fixture: state after registering `http://x/a`. -/
def slD1 : DocInventory := (add_url slashFetch (DocInventory.init ⟨"/base"⟩) "http://x/a").1

/-- Fixture: state after additionally registering `http://x/a/`. -/
def slD2 : DocInventory := (add_url slashFetch slD1 "http://x/a/").1

/-- Fixture: state after registering `http://x/a//b` (internal duplicate
slash). -/
def dsD1 : DocInventory := (add_url slashFetch (DocInventory.init ⟨"/base"⟩) "http://x/a//b").1

/-- Fixture: a fetch collaborator serving a document in which `Config`
appears under two doctypes. -/
def cfgFetch : Fetch := fun _ =>
  .ok ["# Sphinx inventory version 1",
       "Config py:class 1 a.html -",
       "Config py:module 1 b.html -",
       "other py:function 1 c.html -"]

/-- The inventory `cfgFetch`'s document parses to. -/
def cfgInv : Invdata :=
  [("py:class", [("Config", ("", "", "http://x/a.html", "Config"))]),
   ("py:module", [("Config", ("", "", "http://x/b.html", "Config"))]),
   ("py:function", [("other", ("", "", "http://x/c.html", "other"))])]

/-- Fixture: a fetch collaborator serving two distinct inventories. -/
def stFetch : Fetch := fun u =>
  if u = "http://x/objects.inv" then
    .ok ["# Sphinx inventory version 1", "alpha py:function 1 a.html -"]
  else if u = "http://y/objects.inv" then
    .ok ["# Sphinx inventory version 2", "beta py:class 1 b.html -"]
  else .error .fetchError

/-- Fixture: state after registering the first URL. -/
def stD1 : DocInventory :=
  (add_url stFetch (DocInventory.init ⟨"/base"⟩) "http://x/objects.inv").1

/-- Fixture: state after a first lookup, which memoizes a non-empty global
index. -/
def stD2 : DocInventory := (lookup stD1 "alpha").1

/-- Fixture: state after then registering the second URL. -/
def stD3 : DocInventory := (add_url stFetch stD2 "http://y/objects.inv").1

/-- Fixture: a store violating the §3 invariant: the global index lists a
URL whose per-URL inventory entry is missing. -/
def wCorrupt : DocInventory :=
  ⟨⟨"/base"⟩,
   ⟨[], [("http://x/objects.inv",
          ⟨"http://x/objects.inv", "/base/cache/http/x/80/objects.inv", ["alpha"]⟩)]⟩,
   [], none⟩

/-- Fixture: an inventory in which `Config` appears under both the
`py:class` and the `py:module` doctype. -/
def twoInv : Invdata :=
  [("py:class", [("Config", ("", "", "http://x/a.html", "Config"))]),
   ("py:module", [("Config", ("", "", "http://x/b.html", "Config"))])]

/-! ## Association-list lemmas -/

theorem alGet_alSet_self {α : Type} (k : String) (v : α) (l : List (String × α)) :
    alGet k (alSet k v l) = some v := by
  induction l with
  | nil => simp [alSet, alGet]
  | cons kv rest ih =>
    by_cases h : kv.1 = k
    · simp [alSet, h, alGet]
    · simp [alSet, h, alGet, ih]

theorem alGet_alSet_of_ne {α : Type} {k q : String} (h : k ≠ q) (v : α)
    (l : List (String × α)) : alGet q (alSet k v l) = alGet q l := by
  induction l with
  | nil => simp [alSet, alGet, h]
  | cons kv rest ih =>
    by_cases hk : kv.1 = k
    · simp [alSet, hk, alGet, h, ih]
    · by_cases hq : kv.1 = q
      · simp [alSet, hk, alGet, hq, Ne.symm h]
      · simp [alSet, hk, alGet, hq, ih]

/-! ## Behaviour of `add_url` -/

/-- If the URL's shelf key is already present, `add_url` is a no-op. -/
theorem add_url_of_cached (fetch : Fetch) (d : DocInventory) (u p : String)
    (hp : local_path d.ds u = some p)
    (hc : (alGet p d.store.localInv).isSome = true) :
    add_url fetch d u = (d, .ok ()) := by
  simp [add_url, is_cached, hp, hc]

/-- A successful `add_url` leaves the `DataStore` untouched and leaves the
URL's shelf key present. -/
theorem add_url_ok_state (fetch : Fetch) (d d1 : DocInventory) (u : String)
    (h : add_url fetch d u = (d1, .ok ())) :
    d1.ds = d.ds ∧
      ∃ p, local_path d.ds u = some p ∧ (alGet p d1.store.localInv).isSome = true := by
  cases hp : local_path d.ds u with
  | none => simp [add_url, is_cached, hp] at h
  | some p =>
    cases hc : (alGet p d.store.localInv).isSome with
    | true =>
      have hd : d1 = d := by
        simpa [add_url, is_cached, hp, hc] using congrArg Prod.fst h.symm
      subst hd
      exact ⟨rfl, ⟨p, rfl, hc⟩⟩
    | false =>
      cases hf : fetch u with
      | error e => simp [add_url, is_cached, hp, hc, download, hf] at h
      | ok doc =>
        cases hr : read_inventory doc u with
        | error e => simp [add_url, is_cached, hp, hc, download, hf, hr] at h
        | ok inv =>
          have hd : d1 = { d with store :=
              { localInv := alSet p ⟨inv, u, p⟩ d.store.localInv,
                ginv := alSet u ⟨u, p, inventory_names inv⟩ d.store.ginv } } := by
            simpa [add_url, is_cached, hp, hc, download, hf, hr]
              using congrArg Prod.fst h.symm
          subst hd
          exact ⟨rfl, ⟨p, rfl, by simp [alGet_alSet_self]⟩⟩

/-- C1: `add_url` is idempotent: after one successful call for `u`, a
second call — with an arbitrary fetch collaborator, so no fetch can be
consulted — returns the same state and writes nothing: the store content
(per-URL shelves and global index) after two calls equals the content
after one call. -/
theorem add_url_idem (fetch fetchTwo : Fetch) (d d1 : DocInventory) (u : String)
    (h : add_url fetch d u = (d1, .ok ())) :
    add_url fetchTwo d1 u = (d1, .ok ()) := by
  obtain ⟨hds, p, hp, hc⟩ := add_url_ok_state fetch d d1 u h
  exact add_url_of_cached fetchTwo d1 u p (by rw [hds, hp]) hc

/-- Witness for C1 at a concrete run. -/
theorem add_url_idem_w :
    add_url wFetch wD1 "http://x/objects.inv" = (wD1, .ok ()) :=
  add_url_idem wFetch wFetch wD0 wD1 "http://x/objects.inv" (by rfl)

/-- C2: a fetch failure inside `add_url` propagates as the fetch error and
returns the state exactly as it was before the call: the per-URL shelf
entry is still absent (`hnc` still describes the returned state) and the
global index is unchanged, because every store write of
`download`/`add_url` comes after the fetch succeeds. -/
theorem add_url_fetch_error_atomic (fetch : Fetch) (d : DocInventory) (u p : String)
    (hp : local_path d.ds u = some p)
    (hnc : alGet p d.store.localInv = none)
    (hf : fetch u = .error .fetchError) :
    add_url fetch d u = (d, .error .fetchError) := by
  simp [add_url, is_cached, hp, hnc, download, hf]

/-- Witness for C2 at a concrete run. -/
theorem add_url_fetch_error_atomic_w :
    add_url wFailFetch wD0 "http://x/objects.inv" = (wD0, .error .fetchError) :=
  add_url_fetch_error_atomic wFailFetch wD0 "http://x/objects.inv"
    "/base/cache/http/x/80/objects.inv" (by rfl) (by rfl) (by rfl)

/-- C3: a document whose first line is neither recognized format marker
makes parsing fail with the `unsupportedFormat` kind, `add_url` propagates
the failure, and the returned state is exactly the pre-call state: no
per-URL shelf entry and no global-index update is written. -/
theorem add_url_unsupported_format (fetch : Fetch) (d : DocInventory)
    (u p : String) (doc : List String)
    (hp : local_path d.ds u = some p)
    (hnc : alGet p d.store.localInv = none)
    (hf : fetch u = .ok doc)
    (h1 : firstLine doc ≠ "# Sphinx inventory version 1")
    (h2 : firstLine doc ≠ "# Sphinx inventory version 2") :
    read_inventory doc u = .error .unsupportedFormat ∧
      add_url fetch d u = (d, .error .unsupportedFormat) := by
  have hr : read_inventory doc u = .error .unsupportedFormat := by
    simp [read_inventory, h1, h2]
  exact ⟨hr, by simp [add_url, is_cached, hp, hnc, download, hf, hr]⟩

/-- Witness for C3 at a concrete run. -/
theorem add_url_unsupported_format_w :
    read_inventory ["bogus first line"] "http://x/objects.inv" = .error .unsupportedFormat ∧
      add_url wBogusFetch wD0 "http://x/objects.inv" = (wD0, .error .unsupportedFormat) :=
  add_url_unsupported_format wBogusFetch wD0 "http://x/objects.inv"
    "/base/cache/http/x/80/objects.inv" ["bogus first line"]
    (by rfl) (by rfl) (by rfl) (by decide) (by decide)

/-- C7: for a name absent from the Global Index (the name-to-URLs mapping
derived from the store), `lookup` on a fresh instance returns the empty
sequence and no error, whatever the store holds. -/
theorem lookup_unknown_name_empty (d : DocInventory) (nm : String)
    (hmemo : d.gidxCache = none)
    (habs : alGet nm (compute_global_index d.store) = none) :
    (lookup d nm).2 = .ok [] := by
  simp [lookup, global_index, hmemo, habs, lookupGo]

/-- Witness for C7: a populated store, an unindexed name. -/
theorem lookup_unknown_name_empty_w : (lookup wD1 "nonexistent").2 = .ok [] :=
  lookup_unknown_name_empty wD1 "nonexistent" (by rfl) (by rfl)

/-- C6 correction: the two adds don't share a key if exactly one URL ends
with a slash, but any two URLs with equal `local_path` keys register at
most one inventory entry: the second add is a no-op. -/
theorem add_url_same_key_once (fetch fetchTwo : Fetch) (d d1 : DocInventory) (u v : String)
    (hkey : local_path d.ds v = local_path d.ds u)
    (h : add_url fetch d u = (d1, .ok ())) :
    add_url fetchTwo d1 v = (d1, .ok ()) := by
  obtain ⟨hds, p, hp, hc⟩ := add_url_ok_state fetch d d1 u h
  exact add_url_of_cached fetchTwo d1 v p (by rw [hds, hkey, hp]) hc

/-- Counterexample to C6: `add_url` performs no normalization to a
canonical trailing form: `http://x/a` and `http://x/a/` map to distinct
store keys, and registering both performs a second fetch and writes two
per-URL shelf entries and two global-index entries. -/
theorem add_url_no_trailing_normalization :
    local_path (⟨"/base"⟩ : DataStore) "http://x/a" ≠
      local_path (⟨"/base"⟩ : DataStore) "http://x/a/" ∧
    (add_url slashFetch (DocInventory.init ⟨"/base"⟩) "http://x/a").2 = .ok () ∧
    (add_url slashFetch slD1 "http://x/a/").2 = .ok () ∧
    slD2.store.ginv.length = 2 ∧
    slD2.store.localInv.length = 2 :=
  ⟨by decide, rfl, rfl, rfl, rfl⟩

/-- Witness for the amended C6: `http://x/a//b` and `http://x/a/b` have the
same store key (internal empty path segments collapse under path join), so
the second registration is a no-op. -/
theorem add_url_same_key_once_w :
    add_url slashFetch dsD1 "http://x/a/b" = (dsD1, .ok ()) :=
  add_url_same_key_once slashFetch slashFetch (DocInventory.init ⟨"/base"⟩) dsD1
    "http://x/a//b" "http://x/a/b" (by rfl) (by rfl)

/-- C9: round-trip through add and lookup: registering the crafted
version-1 document fetched from base `http://x/` succeeds, and
`lookup "foo"` yields exactly one Topic of type `py:function`, location
`http://x/api.html#foo` (the relative location resolved against the base),
and display `foo` (the `-` marker meaning no display override). -/
theorem add_lookup_roundtrip :
    (add_url rtFetch (DocInventory.init ⟨"/base"⟩) "http://x/").2 = .ok () ∧
      (lookup rtState "foo").2 =
        .ok [⟨"py:function", "", "", "http://x/api.html#foo", "foo"⟩] :=
  ⟨rfl, rfl⟩

/-! ## The names set written to the global index (C10) -/

theorem mem_allNames_aux (inv : Invdata) (acc : List String) (n : String) :
    n ∈ inv.foldl (fun acc q => acc ++ q.2.map Prod.fst) acc ↔
      n ∈ acc ∨ ∃ q ∈ inv, n ∈ q.2.map Prod.fst := by
  induction inv generalizing acc with
  | nil => simp
  | cons q rest ih =>
    simp only [List.foldl_cons, ih, List.mem_append, List.mem_cons]
    constructor
    · rintro (( h | h ) | ⟨q2, hq2, hn⟩)
      · exact Or.inl h
      · exact Or.inr ⟨q, Or.inl rfl, h⟩
      · exact Or.inr ⟨q2, Or.inr hq2, hn⟩
    · rintro (h | ⟨q2, ( rfl | hq2 ), hn⟩)
      · exact Or.inl (Or.inl h)
      · exact Or.inl (Or.inr hn)
      · exact Or.inr ⟨q2, hq2, hn⟩

theorem mem_inventory_names (inv : Invdata) (n : String) :
    n ∈ inventory_names inv ↔ ∃ q ∈ inv, n ∈ q.2.map Prod.fst := by
  simp only [inventory_names, List.mem_dedup, allNames]
  simpa using mem_allNames_aux inv [] n

/-- C10: after a fresh registration, the global-index entry written for the
URL carries exactly `Index(url, path, names)` where `names` is duplicate
free and holds a name if and only if some doctype map of the parsed
inventory contains it — the deduplicated union of the doctype maps' keys. -/
theorem add_url_names_dedup_union (fetch : Fetch) (d : DocInventory)
    (u p : String) (doc : List String) (inv : Invdata)
    (hp : local_path d.ds u = some p)
    (hnc : alGet p d.store.localInv = none)
    (hf : fetch u = .ok doc)
    (hr : read_inventory doc u = .ok inv) :
    (add_url fetch d u).2 = .ok () ∧
      alGet u (add_url fetch d u).1.store.ginv = some ⟨u, p, inventory_names inv⟩ ∧
      (inventory_names inv).Nodup ∧
      ∀ n, n ∈ inventory_names inv ↔ ∃ q ∈ inv, n ∈ q.2.map Prod.fst := by
  have hstep : add_url fetch d u =
      ({ d with store :=
          { localInv := alSet p ⟨inv, u, p⟩ d.store.localInv,
            ginv := alSet u ⟨u, p, inventory_names inv⟩ d.store.ginv } }, .ok ()) := by
    simp [add_url, is_cached, hp, hnc, download, hf, hr]
  refine ⟨by rw [hstep], ?_, List.nodup_dedup _, fun n => mem_inventory_names inv n⟩
  rw [hstep]
  exact alGet_alSet_self u _ _

/-- Witness for C10 at a concrete run: the written names set is duplicate
free and contains the doubly-occurring `Config` (once). -/
theorem add_url_names_dedup_union_w :
    (add_url cfgFetch wD0 "http://x/").2 = .ok () ∧
      alGet "http://x/" (add_url cfgFetch wD0 "http://x/").1.store.ginv =
        some ⟨"http://x/", "/base/cache/http/x/80/", inventory_names cfgInv⟩ ∧
      (inventory_names cfgInv).Nodup ∧
      ("Config" ∈ inventory_names cfgInv ↔ ∃ q ∈ cfgInv, "Config" ∈ q.2.map Prod.fst) := by
  have h := add_url_names_dedup_union cfgFetch wD0 "http://x/"
    "/base/cache/http/x/80/"
    ["# Sphinx inventory version 1",
     "Config py:class 1 a.html -",
     "Config py:module 1 b.html -",
     "other py:function 1 c.html -"]
    cfgInv (by rfl) (by rfl) (by rfl) (by rfl)
  exact ⟨h.1, h.2.1, h.2.2.1, h.2.2.2 "Config"⟩

/-! ## Staleness of the memoized global index (C5) -/

/-- A successful `get_inventory` read comes from a shelf entry at the
URL's key. -/
theorem get_inventory_ok (ds : DataStore) (s : Store) (url p : String) (inv : Invdata)
    (hp : local_path ds url = some p)
    (h : get_inventory ds s url = .ok inv) :
    ∃ sh, alGet p s.localInv = some sh ∧ sh.inventory = inv := by
  unfold get_inventory at h
  rw [hp] at h
  cases hsh : alGet p s.localInv with
  | none =>
    simp only [hsh] at h
    exact Except.noConfusion h
  | some sh =>
    simp only [hsh, Except.ok.injEq] at h
    exact ⟨sh, rfl, h⟩

/-- A shelf entry at the URL's key makes `get_inventory` return its
inventory. -/
theorem get_inventory_of_mem (ds : DataStore) (s : Store) (url p : String)
    (sh : LocalShelf) (hp : local_path ds url = some p)
    (hsh : alGet p s.localInv = some sh) :
    get_inventory ds s url = .ok sh.inventory := by
  unfold get_inventory
  rw [hp]
  simp only [hsh]

/-- The candidate loop of `lookup` computes exactly the spec's fresh
computation over the current store, provided every memoized inventory
agrees with the store; it never changes the `DataStore` or the store, and
it preserves that agreement. -/
theorem lookupGo_eq_fresh (nm : String) (docs : List Document) (d : DocInventory)
    (hwf : ∀ doc ∈ docs, local_path d.ds doc.url = some doc.localPath)
    (hcons : ∀ p inv, alGet p d.invCache = some inv →
      ∃ sh, alGet p d.store.localInv = some sh ∧ sh.inventory = inv) :
    (lookupGo nm docs d).2 = freshLookupGo d.ds d.store nm docs ∧
      (lookupGo nm docs d).1.ds = d.ds ∧
      (lookupGo nm docs d).1.store = d.store ∧
      (∀ p inv, alGet p (lookupGo nm docs d).1.invCache = some inv →
        ∃ sh, alGet p d.store.localInv = some sh ∧ sh.inventory = inv) := by
  induction docs generalizing d with
  | nil => exact ⟨rfl, rfl, rfl, hcons⟩
  | cons doc rest ih =>
    have hpdoc : local_path d.ds doc.url = some doc.localPath :=
      hwf doc (List.mem_cons_self doc rest)
    have hwfrest : ∀ dc ∈ rest, local_path d.ds dc.url = some dc.localPath :=
      fun dc hdc => hwf dc (List.mem_cons_of_mem doc hdc)
    cases h1 : alGet doc.localPath d.invCache with
    | some inv =>
      obtain ⟨sh, hsh, hshinv⟩ := hcons _ _ h1
      have hget : get_inventory d.ds d.store doc.url = .ok inv := by
        rw [get_inventory_of_mem d.ds d.store doc.url doc.localPath sh hpdoc hsh, hshinv]
      have hci : cached_inventory d doc.localPath doc.url = (d, .ok inv) := by
        unfold cached_inventory
        simp only [h1]
      obtain ⟨ih1, ih2, ih3, ih4⟩ := ih d hwfrest hcons
      cases hr2 : lookupGo nm rest d with
      | mk d2 r2 =>
        rw [hr2] at ih1 ih2 ih3 ih4
        dsimp only at ih1 ih2 ih3 ih4
        cases r2 with
        | error e =>
          have hL : lookupGo nm (doc :: rest) d = (d2, .error e) := by
            simp only [lookupGo, hci, hr2]
          have hF : freshLookupGo d.ds d.store nm (doc :: rest) = .error e := by
            simp only [freshLookupGo, hget, ← ih1]
          rw [hL, hF]
          exact ⟨rfl, ih2, ih3, ih4⟩
        | ok ts =>
          have hL : lookupGo nm (doc :: rest) d = (d2, .ok (topicsFor nm inv ++ ts)) := by
            simp only [lookupGo, hci, hr2]
          have hF : freshLookupGo d.ds d.store nm (doc :: rest) =
              .ok (topicsFor nm inv ++ ts) := by
            simp only [freshLookupGo, hget, ← ih1]
          rw [hL, hF]
          exact ⟨rfl, ih2, ih3, ih4⟩
    | none =>
      cases hget : get_inventory d.ds d.store doc.url with
      | error e =>
        have hci : cached_inventory d doc.localPath doc.url = (d, .error e) := by
          unfold cached_inventory
          simp only [h1, hget]
        have hL : lookupGo nm (doc :: rest) d = (d, .error e) := by
          simp only [lookupGo, hci]
        have hF : freshLookupGo d.ds d.store nm (doc :: rest) = .error e := by
          simp only [freshLookupGo, hget]
        rw [hL, hF]
        exact ⟨rfl, rfl, rfl, hcons⟩
      | ok inv =>
        obtain ⟨sh, hsh, hshinv⟩ :=
          get_inventory_ok d.ds d.store doc.url doc.localPath inv hpdoc hget
        have hci : cached_inventory d doc.localPath doc.url =
            ({ d with invCache := alSet doc.localPath inv d.invCache }, .ok inv) := by
          unfold cached_inventory
          simp only [h1, hget]
        have hcons1 : ∀ p inv2,
            alGet p (alSet doc.localPath inv d.invCache) = some inv2 →
            ∃ sh2, alGet p d.store.localInv = some sh2 ∧ sh2.inventory = inv2 := by
          intro p inv2 hp2
          by_cases hpe : doc.localPath = p
          · subst hpe
            rw [alGet_alSet_self] at hp2
            cases hp2
            exact ⟨sh, hsh, hshinv⟩
          · rw [alGet_alSet_of_ne hpe] at hp2
            exact hcons _ _ hp2
        obtain ⟨ih1, ih2, ih3, ih4⟩ :=
          ih { d with invCache := alSet doc.localPath inv d.invCache } hwfrest hcons1
        cases hr2 : lookupGo nm rest { d with invCache := alSet doc.localPath inv d.invCache } with
        | mk d2 r2 =>
          rw [hr2] at ih1 ih2 ih3 ih4
          dsimp only at ih1 ih2 ih3 ih4
          cases r2 with
          | error e =>
            have hL : lookupGo nm (doc :: rest) d = (d2, .error e) := by
              simp only [lookupGo, hci, hr2]
            have hF : freshLookupGo d.ds d.store nm (doc :: rest) = .error e := by
              simp only [freshLookupGo, hget, ← ih1]
            rw [hL, hF]
            exact ⟨rfl, ih2, ih3, ih4⟩
          | ok ts =>
            have hL : lookupGo nm (doc :: rest) d = (d2, .ok (topicsFor nm inv ++ ts)) := by
              simp only [lookupGo, hci, hr2]
            have hF : freshLookupGo d.ds d.store nm (doc :: rest) =
                .ok (topicsFor nm inv ++ ts) := by
              simp only [freshLookupGo, hget, ← ih1]
            rw [hL, hF]
            exact ⟨rfl, ih2, ih3, ih4⟩

/-- On an instance whose global-index memo is unset and whose memoized
inventories agree with the store, `lookup` computes the spec's fresh
computation over the current store. -/
theorem lookup_eq_freshLookup (d : DocInventory) (nm : String)
    (hmemo : d.gidxCache = none)
    (hwf : ∀ doc ∈ (alGet nm (compute_global_index d.store)).getD [],
        local_path d.ds doc.url = some doc.localPath)
    (hcons : ∀ p inv, alGet p d.invCache = some inv →
      ∃ sh, alGet p d.store.localInv = some sh ∧ sh.inventory = inv) :
    (lookup d nm).2 = freshLookup d.ds d.store nm := by
  simp only [lookup, global_index, hmemo, freshLookup]
  exact (lookupGo_eq_fresh nm ((alGet nm (compute_global_index d.store)).getD [])
    { d with gidxCache := some (compute_global_index d.store) } hwf hcons).1

/-- C5 amended: on an instance whose global-index memo is unset (as for
every freshly constructed instance, e.g. one per CLI command) and whose
memoized inventories agree with the store, `lookup` is exactly the spec's
fresh computation over the current store contents. (The unamended claim —
no caching across calls on one instance — is refuted by
the staleness counterexample below.) -/
theorem lookup_fresh_computation (d : DocInventory) (nm : String)
    (hmemo : d.gidxCache = none)
    (hwf : ∀ doc ∈ (alGet nm (compute_global_index d.store)).getD [],
        local_path d.ds doc.url = some doc.localPath)
    (hcons : ∀ p inv, alGet p d.invCache = some inv →
      ∃ sh, alGet p d.store.localInv = some sh ∧ sh.inventory = inv) :
    (lookup d nm).2 = freshLookup d.ds d.store nm :=
  lookup_eq_freshLookup d nm hmemo hwf hcons

/-- Witness for the amended C5 at a concrete state. -/
theorem lookup_fresh_computation_w :
    (lookup wD1 "alpha").2 = freshLookup wD1.ds wD1.store "alpha" :=
  lookup_fresh_computation wD1 "alpha" rfl (by decide)
    (fun p inv h => by simp [alGet] at h)

theorem alGet_alAppend_self {α : Type} (k : String) (v : α)
    (l : List (String × List α)) :
    alGet k (alAppend k v l) = some ((alGet k l).getD [] ++ [v]) := by
  induction l with
  | nil => simp [alAppend, alGet]
  | cons kv rest ih =>
    by_cases h : kv.1 = k
    · simp [alAppend, h, alGet]
    · simp [alAppend, h, alGet, ih]

theorem alGet_alAppend_of_ne {α : Type} {k q : String} (h : k ≠ q) (v : α)
    (l : List (String × List α)) : alGet q (alAppend k v l) = alGet q l := by
  induction l with
  | nil => simp [alAppend, alGet, h]
  | cons kv rest ih =>
    by_cases hk : kv.1 = k
    · simp [alAppend, hk, alGet, h, ih]
    · by_cases hq : kv.1 = q
      · simp [alAppend, hk, alGet, hq, Ne.symm h]
      · simp [alAppend, hk, alGet, hq, ih]

/-- The inner loop of `global_index` appends one `Document` per occurrence
of the looked-up name in the `names` list. -/
theorem alGet_foldl_alAppend (nm : String) (dc : Document) (names : List String)
    (acc : List (String × List Document)) :
    (alGet nm (names.foldl (fun g x => alAppend x dc g) acc)).getD [] =
      (alGet nm acc).getD [] ++ List.replicate (names.count nm) dc := by
  induction names generalizing acc with
  | nil => simp
  | cons x rest ih =>
    rw [List.foldl_cons, ih]
    by_cases h : x = nm
    · subst h
      rw [alGet_alAppend_self, List.count_cons_self]
      simp [List.replicate_succ]
    · rw [alGet_alAppend_of_ne h, List.count_cons_of_ne (Ne.symm h)]

theorem alGet_isSome_iff_mem {α : Type} (k : String) (l : List (String × α)) :
    (alGet k l).isSome = true ↔ k ∈ l.map Prod.fst := by
  induction l with
  | nil => simp [alGet]
  | cons kv rest ih =>
    by_cases h : kv.1 = k
    · simp [alGet, h]
    · simp [alGet, h, ih, Ne.symm h]

/-- The per-inventory yield has exactly one topic, carrying the doctype
tag, per doctype map containing the name, in iteration order. -/
theorem topicsFor_map_type (nm : String) (inv : Invdata) :
    (topicsFor nm inv).map Topic.type =
      (inv.filter (fun q => (alGet nm q.2).isSome)).map Prod.fst := by
  induction inv with
  | nil => rfl
  | cons q rest ih =>
    cases h : alGet nm q.2 with
    | none => simp [topicsFor, h, List.filter_cons, ih]
    | some r => simp [topicsFor, h, List.filter_cons, ih]

/-- The fresh computation fails exactly on a candidate whose shelf entry
is missing, and `corruptIndex` is the only error it can raise. -/
theorem freshLookupGo_error_iff (ds : DataStore) (s : Store) (nm : String)
    (docs : List Document)
    (hwf : ∀ doc ∈ docs, local_path ds doc.url = some doc.localPath) :
    ((freshLookupGo ds s nm docs = .error .corruptIndex) ↔
      ∃ doc ∈ docs, alGet doc.localPath s.localInv = none) ∧
    (∀ e, freshLookupGo ds s nm docs = .error e → e = .corruptIndex) := by
  induction docs with
  | nil => exact ⟨by simp [freshLookupGo], by simp [freshLookupGo]⟩
  | cons doc rest ih =>
    have hpdoc : local_path ds doc.url = some doc.localPath :=
      hwf doc (List.mem_cons_self doc rest)
    have hwfrest : ∀ dc ∈ rest, local_path ds dc.url = some dc.localPath :=
      fun dc hdc => hwf dc (List.mem_cons_of_mem doc hdc)
    obtain ⟨ih1, ih2⟩ := ih hwfrest
    cases hsh : alGet doc.localPath s.localInv with
    | none =>
      have hget : get_inventory ds s doc.url = .error .corruptIndex := by
        unfold get_inventory
        rw [hpdoc]
        simp only [hsh]
      have hF : freshLookupGo ds s nm (doc :: rest) = .error .corruptIndex := by
        simp only [freshLookupGo, hget]
      rw [hF]
      refine ⟨⟨fun _ => ⟨doc, List.mem_cons_self doc rest, hsh⟩, fun _ => rfl⟩, ?_⟩
      intro e he
      exact (Except.error.injEq _ _).mp he.symm
    | some sh =>
      have hget : get_inventory ds s doc.url = .ok sh.inventory :=
        get_inventory_of_mem ds s doc.url doc.localPath sh hpdoc hsh
      cases hrest : freshLookupGo ds s nm rest with
      | error e =>
        have he : e = .corruptIndex := ih2 e hrest
        subst he
        have hF : freshLookupGo ds s nm (doc :: rest) = .error .corruptIndex := by
          simp only [freshLookupGo, hget, hrest]
        rw [hF]
        refine ⟨⟨fun _ => ?_, fun _ => rfl⟩, ?_⟩
        · obtain ⟨dc, hdc, hdcn⟩ := ih1.mp hrest
          exact ⟨dc, List.mem_cons_of_mem doc hdc, hdcn⟩
        · intro e he
          exact (Except.error.injEq _ _).mp he.symm
      | ok ts =>
        have hF : freshLookupGo ds s nm (doc :: rest) =
            .ok (topicsFor nm sh.inventory ++ ts) := by
          simp only [freshLookupGo, hget, hrest]
        rw [hF]
        constructor
        · constructor
          · intro h
            exact Except.noConfusion h
          · rintro ⟨dc, hdc, hdcn⟩
            rcases List.mem_cons.mp hdc with rfl | hdc2
            · rw [hsh] at hdcn
              exact Option.noConfusion hdcn
            · have : freshLookupGo ds s nm rest = .error .corruptIndex :=
                ih1.mpr ⟨dc, hdc2, hdcn⟩
              rw [hrest] at this
              exact Except.noConfusion this
        · intro e he
          exact Except.noConfusion he

/-- C4: on a fresh instance (empty caches), `lookup name` fails — and then
only with the `corruptIndex` kind — exactly when the global index derived
from the store lists a candidate URL for `name` whose per-URL inventory
entry is missing from the store; whenever the §3 invariant holds for the
candidates, `lookup` raises no error at all. -/
theorem lookup_corrupt_index_iff (d : DocInventory) (nm : String)
    (hmemo : d.gidxCache = none)
    (hic : d.invCache = [])
    (hwf : ∀ doc ∈ (alGet nm (compute_global_index d.store)).getD [],
        local_path d.ds doc.url = some doc.localPath) :
    (((lookup d nm).2 = .error .corruptIndex) ↔
      ∃ doc ∈ (alGet nm (compute_global_index d.store)).getD [],
        alGet doc.localPath d.store.localInv = none) ∧
    (∀ e, (lookup d nm).2 = .error e → e = .corruptIndex) := by
  have hcons : ∀ p inv, alGet p d.invCache = some inv →
      ∃ sh, alGet p d.store.localInv = some sh ∧ sh.inventory = inv := by
    rw [hic]
    intro p inv h
    exact Option.noConfusion h
  have heq : (lookup d nm).2 = freshLookup d.ds d.store nm :=
    lookup_eq_freshLookup d nm hmemo hwf hcons
  rw [heq]
  exact freshLookupGo_error_iff d.ds d.store nm _ hwf

/-- Witness for C4: on the corrupted fixture the lookup fails with the
`corruptIndex` kind. -/
theorem lookup_corrupt_index_iff_w :
    (lookup wCorrupt "alpha").2 = .error .corruptIndex :=
  (lookup_corrupt_index_iff wCorrupt "alpha" rfl rfl (by decide)).1.mpr
    ⟨⟨"http://x/objects.inv", "/base/cache/http/x/80/objects.inv"⟩, by decide, rfl⟩

/-- C8: over a store holding one inventory (registered the way `add_url`
writes it), `lookup name` succeeds and yields exactly one Topic — carrying
the doctype tag — per doctype map of that inventory containing `name`; a
name under two doctypes yields exactly two Topics. -/
theorem lookup_one_topic_per_doctype (ds : DataStore) (d : DocInventory)
    (inv : Invdata) (u p nm : String)
    (hp : local_path ds u = some p)
    (hd : d = ⟨ds, ⟨[(p, ⟨inv, u, p⟩)], [(u, ⟨u, p, inventory_names inv⟩)]⟩, [], none⟩) :
    ∃ ts, (lookup d nm).2 = .ok ts ∧
      ts.map Topic.type = (inv.filter (fun q => (alGet nm q.2).isSome)).map Prod.fst := by
  subst hd
  have hbucket : (alGet nm (compute_global_index
      (⟨[(p, ⟨inv, u, p⟩)], [(u, ⟨u, p, inventory_names inv⟩)]⟩ : Store))).getD [] =
      List.replicate ((inventory_names inv).count nm) ⟨u, p⟩ := by
    show (alGet nm ((inventory_names inv).foldl
      (fun g x => alAppend x (⟨u, p⟩ : Document) g) [])).getD [] = _
    simpa [alGet] using alGet_foldl_alAppend nm ⟨u, p⟩ (inventory_names inv) []
  by_cases hmem : nm ∈ inventory_names inv
  · have hcount : (inventory_names inv).count nm = 1 :=
      List.count_eq_one_of_mem (List.nodup_dedup _) hmem
    have hdocs : (alGet nm (compute_global_index
        (⟨[(p, ⟨inv, u, p⟩)], [(u, ⟨u, p, inventory_names inv⟩)]⟩ : Store))).getD [] =
        [(⟨u, p⟩ : Document)] := by
      rw [hbucket, hcount]
      rfl
    have hget : get_inventory ds
        (⟨[(p, ⟨inv, u, p⟩)], [(u, ⟨u, p, inventory_names inv⟩)]⟩ : Store) u = .ok inv := by
      unfold get_inventory
      rw [hp]
      simp [alGet]
    have hd1 : (lookup (⟨ds, ⟨[(p, ⟨inv, u, p⟩)], [(u, ⟨u, p, inventory_names inv⟩)]⟩,
        [], none⟩ : DocInventory) nm).2 =
        (lookupGo nm ((alGet nm (compute_global_index
          (⟨[(p, ⟨inv, u, p⟩)], [(u, ⟨u, p, inventory_names inv⟩)]⟩ : Store))).getD [])
          ⟨ds, ⟨[(p, ⟨inv, u, p⟩)], [(u, ⟨u, p, inventory_names inv⟩)]⟩, [],
            some (compute_global_index
              (⟨[(p, ⟨inv, u, p⟩)], [(u, ⟨u, p, inventory_names inv⟩)]⟩ : Store))⟩).2 := rfl
    have hci : cached_inventory
        (⟨ds, ⟨[(p, ⟨inv, u, p⟩)], [(u, ⟨u, p, inventory_names inv⟩)]⟩, [],
          some (compute_global_index
            (⟨[(p, ⟨inv, u, p⟩)], [(u, ⟨u, p, inventory_names inv⟩)]⟩ : Store))⟩ :
          DocInventory) p u =
        (⟨ds, ⟨[(p, ⟨inv, u, p⟩)], [(u, ⟨u, p, inventory_names inv⟩)]⟩,
          alSet p inv [],
          some (compute_global_index
            (⟨[(p, ⟨inv, u, p⟩)], [(u, ⟨u, p, inventory_names inv⟩)]⟩ : Store))⟩,
         .ok inv) := by
      unfold cached_inventory
      simp only [show (alGet p ([] : List (String × Invdata))) = none from rfl, hget]
    refine ⟨topicsFor nm inv, ?_, topicsFor_map_type nm inv⟩
    rw [hd1, hdocs]
    simp only [lookupGo, hci, List.append_nil]
  · have hcount : (inventory_names inv).count nm = 0 := List.count_eq_zero.mpr hmem
    have hdocs : (alGet nm (compute_global_index
        (⟨[(p, ⟨inv, u, p⟩)], [(u, ⟨u, p, inventory_names inv⟩)]⟩ : Store))).getD [] =
        ([] : List Document) := by
      rw [hbucket, hcount]
      rfl
    have hfilter : inv.filter (fun q => (alGet nm q.2).isSome) = [] := by
      rw [List.filter_eq_nil_iff]
      intro q hq hsome
      exact hmem ((mem_inventory_names inv nm).mpr
        ⟨q, hq, (alGet_isSome_iff_mem nm q.2).mp hsome⟩)
    refine ⟨[], ?_, by rw [hfilter]; rfl⟩
    have hd1 : (lookup (⟨ds, ⟨[(p, ⟨inv, u, p⟩)], [(u, ⟨u, p, inventory_names inv⟩)]⟩,
        [], none⟩ : DocInventory) nm).2 =
        (lookupGo nm ((alGet nm (compute_global_index
          (⟨[(p, ⟨inv, u, p⟩)], [(u, ⟨u, p, inventory_names inv⟩)]⟩ : Store))).getD [])
          ⟨ds, ⟨[(p, ⟨inv, u, p⟩)], [(u, ⟨u, p, inventory_names inv⟩)]⟩, [],
            some (compute_global_index
              (⟨[(p, ⟨inv, u, p⟩)], [(u, ⟨u, p, inventory_names inv⟩)]⟩ : Store))⟩).2 := rfl
    rw [hd1, hdocs]
    rfl

/-- Witness for C8: the doubly-classified `Config` yields exactly two
Topics, one per doctype. -/
theorem lookup_one_topic_per_doctype_w :
    ∃ ts, (lookup (⟨⟨"/base"⟩, ⟨[("/base/cache/http/x/80/", ⟨twoInv, "http://x/", "/base/cache/http/x/80/"⟩)],
        [("http://x/", ⟨"http://x/", "/base/cache/http/x/80/", inventory_names twoInv⟩)]⟩,
        [], none⟩ : DocInventory) "Config").2 = .ok ts ∧
      ts.map Topic.type = ["py:class", "py:module"] := by
  obtain ⟨ts, h1, h2⟩ := lookup_one_topic_per_doctype ⟨"/base"⟩ _ twoInv "http://x/"
    "/base/cache/http/x/80/" "Config" (by rfl) rfl
  exact ⟨ts, h1, h2.trans (by rfl)⟩

/-- Counterexample to C5: on one instance, after a lookup has memoized a
non-empty global index, a later successful `add_url` for `v` is not
reflected: the current store's global index lists `beta` (from `v`'s
inventory) and the spec's fresh computation finds it, but `lookup` returns
the empty sequence. -/
theorem lookup_stale_after_add :
    (add_url stFetch stD2 "http://y/objects.inv").2 = .ok () ∧
      ((alGet "beta" (compute_global_index stD3.store)).getD []).length = 1 ∧
      freshLookup stD3.ds stD3.store "beta" =
        .ok [⟨"py:class", "", "", "http://y/objects.inv/b.html", "beta"⟩] ∧
      (lookup stD3 "beta").2 = .ok [] :=
  ⟨rfl, rfl, rfl, rfl⟩

end DocInv
